import Mathlib

/-
Shallow embedding of the bionic_reader webapp (single source file, a Flask app
with an embedded client script).  Strings are modelled as `List Char`, the
JavaScript number type is modelled by exact rational arithmetic over `ℚ`, and
the Flask request/response cycle is modelled by a pure function from the request
data to a response record together with a trace of file-system steps.

Embedded pieces, with the source function each definition translates:
 * `escapeHtml`      - the client `escapeHtml` (five chained global replaces);
 * `splitRuns`       - the split `text.split(/(\s+)/)` keeping whitespace runs
                       (empty boundary tokens of the JavaScript split are
                       dropped: they are mapped to the empty string and so do
                       not affect the joined output);
 * `processToken`    - the body of the `.map(token => ...)` callback inside
                       `bionicWrapText`, with the core regular expression (a
                       leading run of letters, digits and apostrophes, then
                       the remainder) modelled on the ASCII fragment of the
                       letter/number categories by `isCoreChar`;
 * `bionicWrapText`  - the whole client formatter (split, map, join);
 * `renderTextHtml`  - the `renderText` composition
                       `bionicWrapText(escapeHtml(raw), intensity)`;
 * `applyStyles`     - the client `applyStyles`, as a pure map from control
                       state to the style record it writes;
 * `allowed_file`    - the server extension check;
 * `extractText`     - the PyMuPDF extraction loop plus its `except` fallback,
                       with the opened document abstracted to either a page
                       list or an exception message;
 * `upload_file`     - the `/upload` handler.

`unescapeHtml` and `stripTags` are not translations of source code: they are
the markup-dropping functions used to state that the formatter output, with
the added tags removed and the entity escaping undone, is the original text.
-/

namespace BionicReader

/-- Entity encoding of one character, as produced by the chained replaces of
the client `escapeHtml`. -/
def enc (c : Char) : List Char :=
  if c = '&' then "&amp;".toList
  else if c = '<' then "&lt;".toList
  else if c = '>' then "&gt;".toList
  else if c = '"' then "&quot;".toList
  else if c = '\'' then "&#039;".toList
  else [c]

/-- One global single-character replace pass, `s.replace(/c/g, r)`. -/
def repl (c : Char) (r : List Char) (s : List Char) : List Char :=
  s.flatMap (fun x => if x = c then r else [x])

/-- The client `escapeHtml`: five chained replace passes, ampersand first. -/
def escapeHtml (s : List Char) : List Char :=
  repl '\'' ("&#039;".toList) (repl '"' ("&quot;".toList) (repl '>' ("&gt;".toList)
    (repl '<' ("&lt;".toList) (repl '&' ("&amp;".toList) s))))

/-- Inverse of the entity escaping: decodes the five entities emitted by
`escapeHtml` and copies every other character. -/
def unescapeHtml : List Char → List Char
  | [] => []
  | c :: r =>
    if c = '&' then
      if r.take 4 = ("amp;".toList) then '&' :: unescapeHtml (r.drop 4)
      else if r.take 3 = ("lt;".toList) then '<' :: unescapeHtml (r.drop 3)
      else if r.take 3 = ("gt;".toList) then '>' :: unescapeHtml (r.drop 3)
      else if r.take 5 = ("quot;".toList) then '"' :: unescapeHtml (r.drop 5)
      else if r.take 5 = ("#039;".toList) then '\'' :: unescapeHtml (r.drop 5)
      else c :: unescapeHtml r
    else c :: unescapeHtml r
termination_by s => s.length
decreasing_by all_goals (first | (simp [List.length_drop]; omega) | (simp [List.length_drop]))

/-- Removes every `<...>` tag from an HTML fragment; the flag says whether the
scan is currently inside a tag. -/
def stripTagsAux : Bool → List Char → List Char
  | _, [] => []
  | true, c :: rest => if c = '>' then stripTagsAux false rest else stripTagsAux true rest
  | false, c :: rest => if c = '<' then stripTagsAux true rest else c :: stripTagsAux false rest

/-- Removes every `<...>` tag from an HTML fragment. -/
def stripTags (s : List Char) : List Char := stripTagsAux false s

/-- A literal tag with the given body. -/
def tagLit (t : List Char) : List Char := '<' :: t ++ ['>']

/-- The two opening tags emitted for a word with a core,
`<span class="word"><span class="bionic-strong">`. -/
def bionicOpen : List Char :=
  tagLit ("span class=\"word\"".toList) ++ tagLit ("span class=\"bionic-strong\"".toList)

/-- The closing tag `</span>`. -/
def spanClose : List Char := tagLit ("/span".toList)

/-- Characters matched by the character class of the core regular expression
(letters, digits, apostrophe), on the ASCII fragment of the letter/number
categories. -/
def isCoreChar (c : Char) : Bool := c.isAlphanum || c = '\''

/-- The effective ratio of `bionicWrapText`:
`Math.min(Math.max(ratioPercent / 100, 0.05), 0.9)`. -/
def ratioOf (p : ℤ) : ℚ := min (max ((p : ℚ) / 100) 0.05) 0.9

/-- Splits a text into its maximal runs of whitespace and non-whitespace
characters, in order.  This is `text.split(/(\s+)/)` without the empty
boundary tokens (which the formatter maps to the empty string anyway). -/
def splitRuns : List Char → List (List Char)
  | [] => []
  | c :: cs =>
    match splitRuns cs with
    | [] => [[c]]
    | [] :: rs => [c] :: rs
    | (d :: r) :: rs =>
      if c.isWhitespace = d.isWhitespace then (c :: d :: r) :: rs
      else [c] :: (d :: r) :: rs

/-- The body of the token callback of `bionicWrapText`: whitespace runs pass
through verbatim; a token with no leading core is escaped whole; otherwise the
leading core is split at `k = Math.max(1, Math.ceil(n * ratio))` and wrapped
in the two spans, every text fragment being escaped. -/
def processToken (p : ℤ) (tok : List Char) : List Char :=
  if tok ≠ [] ∧ tok.all Char.isWhitespace = true then tok
  else
    let core := tok.takeWhile isCoreChar
    let rest := tok.dropWhile isCoreChar
    if core = [] then escapeHtml tok
    else
      let k := max 1 (⌈(core.length : ℚ) * ratioOf p⌉).toNat
      bionicOpen ++ escapeHtml (core.take k) ++ spanClose ++ escapeHtml (core.drop k)
        ++ escapeHtml rest ++ spanClose

/-- The client `bionicWrapText(text, ratioPercent)`: split keeping whitespace,
map the token callback, join with the empty separator. -/
def bionicWrapText (text : List Char) (ratioPercent : ℤ) : List Char :=
  ((splitRuns text).map (processToken ratioPercent)).flatten

/-- The HTML string assigned to the container by `renderText`:
`bionicWrapText(escapeHtml(raw), intensity)`. -/
def renderTextHtml (raw : List Char) (intensity : ℤ) : List Char :=
  bionicWrapText (escapeHtml raw) intensity

/-- The visible (tag-free) part of the output of `processToken` on one token:
the token itself for a whitespace run, its escaping otherwise. -/
def visibleTok (tok : List Char) : List Char :=
  if tok ≠ [] ∧ tok.all Char.isWhitespace = true then tok else escapeHtml tok

/-- The control state read by `applyStyles`: the two slider values (pixels)
and the soft-text checkbox. -/
structure DisplayState where
  fontSizePx : ℚ
  lineHeightPx : ℚ
  softEnabled : Bool

/-- The two foreground colors the script assigns: the CSS variables
`var(--soft-color)` and `var(--text)`. -/
inductive CssColor
  | softGray
  | primaryText
  deriving DecidableEq

/-- The style record `applyStyles` writes onto the text container, plus the
two labels it updates. -/
structure ContainerStyle where
  fontSizePx : ℚ
  lineHeight : ℚ
  color : CssColor
  opacity : ℚ
  letterSpacingPx : ℚ
  fontSizeLabel : ℚ
  lineHeightLabel : ℚ

/-- Rounding to two decimals, the model of `x.toFixed(2)`. -/
def toFixed2 (x : ℚ) : ℚ := ((round (x * 100) : ℤ) : ℚ) / 100

/-- The client `applyStyles` as a pure map from control state to the style it
writes: font size verbatim, line height as the rounded unitless quotient, and
the three soft-text properties switched on the checkbox.  The label element is
updated with `lineHeightPx / 16` in the source, which is kept as is. -/
def applyStyles (s : DisplayState) : ContainerStyle :=
  { fontSizePx := s.fontSizePx
    lineHeight := toFixed2 (s.lineHeightPx / s.fontSizePx)
    color := if s.softEnabled then CssColor.softGray else CssColor.primaryText
    opacity := if s.softEnabled then 0.95 else 1
    letterSpacingPx := if s.softEnabled then 0.2 else 0
    fontSizeLabel := s.fontSizePx
    lineHeightLabel := toFixed2 (s.lineHeightPx / 16) }

/-- The client `updateLineHeightLabel`: the label shows `lineHeightPx / 16`
rounded to two decimals. -/
def updateLineHeightLabel (lineHeightPx : ℚ) : ℚ := toFixed2 (lineHeightPx / 16)

/-- The part of a filename after its last dot, `filename.rsplit('.', 1)[1]`. -/
def afterLastDot (f : List Char) : List Char :=
  (f.reverse.takeWhile (fun c => c != '.')).reverse

/-- ASCII lowercasing, the model of `str.lower()`. -/
def lowerAscii (s : List Char) : List Char := s.map Char.toLower

/-- The server extension check `allowed_file`: the filename contains a dot and
the part after the last dot lowercases to a member of `ALLOWED_EXTENSIONS`,
which is the one-element set containing `pdf`. -/
def allowed_file (f : List Char) : Bool :=
  f.contains '.' && decide (lowerAscii (afterLastDot f) = ("pdf".toList))

/-- An opened PDF document abstracted to what the extraction loop reads from
it: either the page texts in document order, or the message of the exception
raised while opening or reading it. -/
abbrev PdfDoc : Type := Except (List Char) (List (List Char))

/-- The accumulation loop of the extraction: each page text is appended to the
list when it is non-empty (Python truthiness of a string). -/
def collectPages (pages : List (List Char)) : List (List Char) :=
  pages.foldl (fun acc txt => if txt ≠ [] then acc ++ [txt] else acc) []

/-- The extraction step of `upload_file`: on success the collected page texts
joined by a blank line, on an exception the placeholder string
`[Error extracting text: <details>]`. -/
def extractText (doc : PdfDoc) : List Char :=
  match doc with
  | Except.ok pages => List.intercalate ("\n\n".toList) (collectPages pages)
  | Except.error e => ("[Error extracting text: ".toList) ++ e ++ ("]".toList)

/-- One externally visible step of the handler against the file system.  The
removal step exists in the vocabulary but is never emitted by the handler. -/
inductive Step
  | saveFile (path : List Char)
  | removeFile (path : List Char)
  | extractAttempt
  deriving DecidableEq

/-- Replays a step trace into the set of files present afterwards. -/
def replayFs (steps : List Step) : List (List Char) :=
  steps.foldl
    (fun fs st =>
      match st with
      | Step.saveFile pth => if pth ∈ fs then fs else fs ++ [pth]
      | Step.removeFile pth => fs.filter (fun q => q != pth)
      | Step.extractAttempt => fs) []

/-- The response of the `/upload` handler: HTTP status, redirect target,
flashed message, the text and filename embedded in the rendered page, and the
trace of handler steps. -/
structure UploadResponse where
  status : ℕ
  redirectTo : Option (List Char)
  flashed : Option (List Char)
  rawText : Option (List Char)
  shownFilename : Option (List Char)
  steps : List Step

/-- The `/upload` handler `upload_file`.  The filename sanitizer
(`secure_filename`, imported from werkzeug, not part of this repository) is an
abstract parameter; the file is saved under the upload folder before the
extraction is attempted, and a validation failure flashes a message and
redirects to the index without touching storage. -/
def upload_file (hasFilePart : Bool) (filename : List Char)
    (san : List Char → List Char) (doc : PdfDoc) : UploadResponse :=
  if hasFilePart = false then
    { status := 302, redirectTo := some ("/".toList), flashed := some ("No file part".toList),
      rawText := none, shownFilename := none, steps := [] }
  else if filename = [] then
    { status := 302, redirectTo := some ("/".toList), flashed := some ("No selected file".toList),
      rawText := none, shownFilename := none, steps := [] }
  else if allowed_file filename = true then
    { status := 200, redirectTo := none, flashed := none,
      rawText := some (extractText doc),
      shownFilename := some (san filename),
      steps := [Step.saveFile (("uploads/".toList) ++ san filename), Step.extractAttempt] }
  else
    { status := 302, redirectTo := some ("/".toList), flashed := some ("Invalid file type".toList),
      rawText := none, shownFilename := none, steps := [] }

/-- The five chained replace passes amount to a single pass of per-character
entity encoding: the ampersand pass runs first, and no later pass rewrites a
character introduced by an earlier one. -/
theorem escapeHtml_append (a b : List Char) :
    escapeHtml (a ++ b) = escapeHtml a ++ escapeHtml b := by
  simp [escapeHtml, repl, List.flatMap_append]

theorem escapeHtml_single (c : Char) : escapeHtml [c] = enc c := by
  by_cases h1 : c = '&'
  · subst h1; rfl
  · by_cases h2 : c = '<'
    · subst h2; rfl
    · by_cases h3 : c = '>'
      · subst h3; rfl
      · by_cases h4 : c = '"'
        · subst h4; rfl
        · by_cases h5 : c = '\''
          · subst h5; rfl
          · simp [escapeHtml, repl, enc, h1, h2, h3, h4, h5]

theorem escapeHtml_eq_flatMap (s : List Char) : escapeHtml s = s.flatMap enc := by
  induction s with
  | nil => rfl
  | cons c s ih =>
    have hc : c :: s = [c] ++ s := rfl
    rw [hc, escapeHtml_append, List.flatMap_append, escapeHtml_single, ih]
    simp

theorem enc_ne_lt (c : Char) : ∀ x ∈ enc c, x ≠ '<' := by
  intro x hx
  unfold enc at hx
  split_ifs at hx with h1 h2 h3 h4 h5
  · intro hq; subst hq; exact absurd hx (by decide)
  · intro hq; subst hq; exact absurd hx (by decide)
  · intro hq; subst hq; exact absurd hx (by decide)
  · intro hq; subst hq; exact absurd hx (by decide)
  · intro hq; subst hq; exact absurd hx (by decide)
  · simp at hx; subst hx; exact fun hq => h2 hq

theorem escapeHtml_ne_lt (s : List Char) : ∀ x ∈ escapeHtml s, x ≠ '<' := by
  intro x hx
  rw [escapeHtml_eq_flatMap] at hx
  rcases List.mem_flatMap.1 hx with ⟨c, _, hc⟩
  exact enc_ne_lt c x hc

theorem unescape_cons_ne (c : Char) (r : List Char) (h : c ≠ '&') :
    unescapeHtml (c :: r) = c :: unescapeHtml r := by
  rw [unescapeHtml.eq_def]; simp [h]

theorem unescape_amp (r : List Char) :
    unescapeHtml ('&' :: 'a' :: 'm' :: 'p' :: ';' :: r) = '&' :: unescapeHtml r := by
  rw [unescapeHtml.eq_def]; simp

theorem unescape_lt (r : List Char) :
    unescapeHtml ('&' :: 'l' :: 't' :: ';' :: r) = '<' :: unescapeHtml r := by
  rw [unescapeHtml.eq_def]; simp

theorem unescape_gt (r : List Char) :
    unescapeHtml ('&' :: 'g' :: 't' :: ';' :: r) = '>' :: unescapeHtml r := by
  rw [unescapeHtml.eq_def]; simp

theorem unescape_quot (r : List Char) :
    unescapeHtml ('&' :: 'q' :: 'u' :: 'o' :: 't' :: ';' :: r) = '"' :: unescapeHtml r := by
  rw [unescapeHtml.eq_def]; simp

theorem unescape_apos (r : List Char) :
    unescapeHtml ('&' :: '#' :: '0' :: '3' :: '9' :: ';' :: r) = '\'' :: unescapeHtml r := by
  rw [unescapeHtml.eq_def]; simp

/-- Decoding after encoding recovers the text, in front of any continuation. -/
theorem unescape_escape_append (s A : List Char) :
    unescapeHtml (s.flatMap enc ++ A) = s ++ unescapeHtml A := by
  induction s with
  | nil => rfl
  | cons c s ih =>
    simp only [List.flatMap_cons, List.append_assoc]
    by_cases h1 : c = '&'
    · subst h1
      show unescapeHtml ('&' :: 'a' :: 'm' :: 'p' :: ';' :: _) = _
      rw [unescape_amp]; simpa using ih
    · by_cases h2 : c = '<'
      · subst h2
        show unescapeHtml ('&' :: 'l' :: 't' :: ';' :: _) = _
        rw [unescape_lt]; simpa using ih
      · by_cases h3 : c = '>'
        · subst h3
          show unescapeHtml ('&' :: 'g' :: 't' :: ';' :: _) = _
          rw [unescape_gt]; simpa using ih
        · by_cases h4 : c = '"'
          · subst h4
            show unescapeHtml ('&' :: 'q' :: 'u' :: 'o' :: 't' :: ';' :: _) = _
            rw [unescape_quot]; simpa using ih
          · by_cases h5 : c = '\''
            · subst h5
              show unescapeHtml ('&' :: '#' :: '0' :: '3' :: '9' :: ';' :: _) = _
              rw [unescape_apos]; simpa using ih
            · have he : enc c = [c] := by simp [enc, h1, h2, h3, h4, h5]
              rw [he]
              show unescapeHtml (c :: _) = _
              rw [unescape_cons_ne c _ h1]; simpa using ih

/-- Decoding copies an ampersand-free block, in front of any continuation. -/
theorem unescape_noamp_append (s A : List Char) (h : ∀ x ∈ s, x ≠ '&') :
    unescapeHtml (s ++ A) = s ++ unescapeHtml A := by
  induction s with
  | nil => rfl
  | cons c s ih =>
    rw [List.cons_append, unescape_cons_ne c _ (h c (by simp))]
    simp [ih (fun x hx => h x (by simp [hx]))]

/-- Tag stripping copies a block that opens no tag, in front of anything. -/
theorem strip_no_lt (s : List Char) (h : ∀ x ∈ s, x ≠ '<') (A : List Char) :
    stripTagsAux false (s ++ A) = s ++ stripTagsAux false A := by
  induction s with
  | nil => rfl
  | cons c s ih =>
    rw [List.cons_append]
    show stripTagsAux false (c :: (s ++ A)) = _
    rw [stripTagsAux]
    simp only [h c (by simp), if_false, reduceIte]
    rw [ih (fun x hx => h x (by simp [hx]))]
    rfl

theorem strip_in_tag (t : List Char) (h : ∀ x ∈ t, x ≠ '>') (A : List Char) :
    stripTagsAux true (t ++ '>' :: A) = stripTagsAux false A := by
  induction t with
  | nil => simp [stripTagsAux]
  | cons c t ih =>
    rw [List.cons_append]
    show stripTagsAux true (c :: (t ++ '>' :: A)) = _
    rw [stripTagsAux]
    simp only [h c (by simp), reduceIte]
    exact ih (fun x hx => h x (by simp [hx]))

/-- Tag stripping deletes a whole literal tag, in front of anything. -/
theorem strip_tagLit (t : List Char) (h : ∀ x ∈ t, x ≠ '>') (A : List Char) :
    stripTagsAux false (tagLit t ++ A) = stripTagsAux false A := by
  show stripTagsAux false ('<' :: (t ++ ['>']) ++ A) = _
  rw [List.cons_append, stripTagsAux]
  simp only [reduceIte]
  rw [List.append_assoc]
  simpa using strip_in_tag t h A

/-- The run splitting loses no character: its concatenation is the text. -/
theorem splitRuns_flatten (s : List Char) : (splitRuns s).flatten = s := by
  induction s with
  | nil => rfl
  | cons c cs ih =>
    rw [splitRuns]
    rcases hr : splitRuns cs with _ | ⟨r, rs⟩
    · simp only [hr] at ih
      simp at ih
      simp [ih.symm]
    · rcases r with _ | ⟨d, r⟩
      · simp only [hr] at ih
        simp [ih.symm]
      · by_cases hw : c.isWhitespace = d.isWhitespace
        · simp only [hr] at ih
          simp [hw, ← ih]
        · simp only [hr] at ih
          simp [hw, ← ih]

/-- Tag stripping on the output of the token callback leaves exactly its
visible text, in front of any continuation. -/
theorem strip_processToken (p : ℤ) (tok A : List Char) :
    stripTagsAux false (processToken p tok ++ A) = visibleTok tok ++ stripTagsAux false A := by
  by_cases hws : tok ≠ [] ∧ tok.all Char.isWhitespace = true
  · rw [processToken, visibleTok, if_pos hws, if_pos hws]
    refine strip_no_lt tok (fun x hx => ?_) A
    have hw := List.all_eq_true.1 hws.2 x hx
    intro hq; subst hq; exact absurd hw (by decide)
  · rw [processToken, visibleTok, if_neg hws, if_neg hws]
    by_cases hc : tok.takeWhile isCoreChar = []
    · rw [if_pos hc]
      exact strip_no_lt _ (escapeHtml_ne_lt tok) A
    · rw [if_neg hc]
      have h1 : ∀ x ∈ ("span class=\"word\"".toList), x ≠ '>' := by decide
      have h2 : ∀ x ∈ ("span class=\"bionic-strong\"".toList), x ≠ '>' := by decide
      have h3 : ∀ x ∈ ("/span".toList), x ≠ '>' := by decide
      simp only [bionicOpen, spanClose, List.append_assoc]
      rw [strip_tagLit _ h1, strip_tagLit _ h2, strip_no_lt _ (escapeHtml_ne_lt _),
        strip_tagLit _ h3, strip_no_lt _ (escapeHtml_ne_lt _),
        strip_no_lt _ (escapeHtml_ne_lt _), strip_tagLit _ h3]
      rw [← List.append_assoc, ← List.append_assoc, ← escapeHtml_append, ← escapeHtml_append,
        List.take_append_drop, List.takeWhile_append_dropWhile]

/-- Decoding the visible text of one token recovers the token, in front of any
continuation. -/
theorem unescape_visibleTok (tok A : List Char) :
    unescapeHtml (visibleTok tok ++ A) = tok ++ unescapeHtml A := by
  rw [visibleTok]
  by_cases hws : tok ≠ [] ∧ tok.all Char.isWhitespace = true
  · rw [if_pos hws]
    refine unescape_noamp_append tok A (fun x hx => ?_)
    have hw := List.all_eq_true.1 hws.2 x hx
    intro hq; subst hq; exact absurd hw (by decide)
  · rw [if_neg hws, escapeHtml_eq_flatMap]
    exact unescape_escape_append tok A

/-- Stripping the tags and decoding the entities of the mapped-and-joined
token list recovers the concatenation of the tokens. -/
theorem strip_unescape_tokens (p : ℤ) (toks : List (List Char)) :
    unescapeHtml (stripTagsAux false ((toks.map (processToken p)).flatten)) = toks.flatten := by
  induction toks with
  | nil => simp [unescapeHtml, stripTagsAux]
  | cons tok rest ih =>
    simp only [List.map_cons, List.flatten_cons]
    rw [strip_processToken, unescape_visibleTok, ih]

theorem ratioOf_le_one (p : ℤ) : ratioOf p ≤ 1 :=
  le_trans (min_le_right _ _) (by norm_num)

theorem ratioOf_35_eval : ratioOf 35 = 7/20 := by
  unfold ratioOf; rw [min_def, max_def]; norm_num

/-- Claim C2: splitting the text into alternating whitespace and
non-whitespace tokens as the formatter does, running the formatter, and
dropping only the added markup (the inserted span tags and the entity
escaping) recovers the exact original text; the whitespace runs pass through
the token callback verbatim. -/
theorem bionicWrapText_lossless (text : List Char) (p : ℤ) :
    unescapeHtml (stripTags (bionicWrapText text p)) = text ∧
    (∀ tok : List Char, tok ≠ [] → tok.all Char.isWhitespace = true →
      processToken p tok = tok) := by
  constructor
  · rw [bionicWrapText, stripTags, strip_unescape_tokens, splitRuns_flatten]
  · intro tok h1 h2
    unfold processToken
    exact if_pos ⟨h1, h2⟩

/-- Witness for C2 at a concrete text and a concrete whitespace token. -/
theorem bionicWrapText_lossless_witness :
    unescapeHtml (stripTags (bionicWrapText ("a b".toList) 35)) = ("a b".toList) ∧
    processToken 35 (" ".toList) = (" ".toList) :=
  ⟨(bionicWrapText_lossless ("a b".toList) 35).1,
   (bionicWrapText_lossless ("a b".toList) 35).2 (" ".toList) (by decide) (by decide)⟩

/-- Claim C3: for a non-whitespace token whose leading alphanumeric core has
length `n ≥ 1`, the bold cut `k` equals `max 1 ⌈n * r⌉` with `r` the effective
ratio, satisfies `1 ≤ k ≤ n`, and the token is emitted as the bold prefix of
length `k` and the normal suffix of length `n - k` (both escaped) followed by
the escaped trailing remainder; a token with no leading core is emitted
escaped but otherwise unchanged. -/
theorem bionic_core_split (p : ℤ) (tok core : List Char) (n k : ℕ)
    (hws : ¬(tok ≠ [] ∧ tok.all Char.isWhitespace = true))
    (hc : core = tok.takeWhile isCoreChar)
    (hn : n = core.length)
    (hk : k = max 1 (⌈(n : ℚ) * ratioOf p⌉).toNat) :
    (core = [] → processToken p tok = escapeHtml tok) ∧
    (core ≠ [] →
      1 ≤ k ∧ k ≤ n ∧ (core.take k).length = k ∧ (core.drop k).length = n - k ∧
      processToken p tok =
        bionicOpen ++ escapeHtml (core.take k) ++ spanClose ++ escapeHtml (core.drop k)
          ++ escapeHtml (tok.dropWhile isCoreChar) ++ spanClose) := by
  subst hn hk hc
  constructor
  · intro h0
    unfold processToken
    rw [if_neg hws]
    simp only [h0, reduceIte]
  · intro h0
    have hkn : max 1 (⌈((tok.takeWhile isCoreChar).length : ℚ) * ratioOf p⌉).toNat
        ≤ (tok.takeWhile isCoreChar).length := by
      refine max_le (List.length_pos.2 h0) ?_
      refine Int.toNat_le.2 (Int.ceil_le.2 ?_)
      calc ((tok.takeWhile isCoreChar).length : ℚ) * ratioOf p
          ≤ ((tok.takeWhile isCoreChar).length : ℚ) * 1 :=
            mul_le_mul_of_nonneg_left (ratioOf_le_one p) (by positivity)
        _ = (((tok.takeWhile isCoreChar).length : ℤ) : ℚ) := by push_cast; ring
    refine ⟨le_max_left _ _, hkn, ?_, ?_, ?_⟩
    · rw [List.length_take]
      exact min_eq_left hkn
    · rw [List.length_drop]
    · unfold processToken
      rw [if_neg hws]
      simp only [h0, reduceIte]

/-- Witness for C3 at the example token of the spec: `fun!` at 35 percent has
core `fun` of length 3, cut `k = 2`, bold part `fu`, normal part `n`,
remainder `!`. -/
theorem bionic_core_split_witness :
    processToken 35 ("fun!".toList) =
      bionicOpen ++ escapeHtml ("fu".toList) ++ spanClose ++ escapeHtml ("n".toList)
        ++ escapeHtml ("!".toList) ++ spanClose := by
  have hceil : (⌈(3 : ℚ) * ratioOf 35⌉ : ℤ) = 2 := by
    rw [ratioOf_35_eval, Int.ceil_eq_iff]
    constructor
    · norm_num
    · norm_num
  have hk : (2 : ℕ) = max 1 (⌈((3 : ℕ) : ℚ) * ratioOf 35⌉).toNat := by
    rw [show (((3 : ℕ) : ℚ)) = (3 : ℚ) by norm_num, hceil]
    rfl
  have h := (bionic_core_split 35 ("fun!".toList) ("fun".toList) 3 2
      (by decide) (by decide) (by decide) hk).2 (by decide)
  exact h.2.2.2.2

/-- Claim C4: the effective ratio of the formatter equals the intensity
clamped to the inclusive range from 5 to 90, divided by 100; outside that
range the boundary values 0.05 and 0.9 are used, not the raw input over 100. -/
theorem ratioOf_clamps (p : ℤ) :
    ratioOf p = ((min 90 (max 5 p) : ℤ) : ℚ) / 100 ∧
    (p < 5 → ratioOf p = 0.05) ∧
    (90 < p → ratioOf p = 0.9) := by
  have h100 : (0:ℚ) < 100 := by norm_num
  have hmain : ratioOf p = ((min 90 (max 5 p) : ℤ) : ℚ) / 100 := by
    unfold ratioOf
    push_cast
    rw [min_def, max_def, min_def, max_def]
    have e1 : (0.05 : ℚ) = 5/100 := by norm_num
    have e2 : (0.9 : ℚ) = 90/100 := by norm_num
    rw [e1, e2]
    split_ifs with h1 h2 h3 h4 h5 h6 h7 <;>
      first
        | rfl
        | (exfalso;
           rw [div_le_div_iff_of_pos_right h100] at *; linarith)
        | (rw [div_le_div_iff_of_pos_right h100] at *; linarith)
  refine ⟨hmain, fun hlow => ?_, fun hhigh => ?_⟩
  · rw [hmain, max_eq_left (by linarith : p ≤ 5), min_eq_right (by norm_num : (5:ℤ) ≤ 90)]
    norm_num
  · rw [hmain, max_eq_right (by linarith : (5:ℤ) ≤ p), min_eq_left (by linarith : (90:ℤ) ≤ p)]
    norm_num

/-- Witness for C4 at the out-of-range intensities 0 and 100. -/
theorem ratioOf_clamps_witness : ratioOf 0 = 0.05 ∧ ratioOf 100 = 0.9 :=
  ⟨(ratioOf_clamps 0).2.1 (by decide), (ratioOf_clamps 100).2.2 (by decide)⟩

/-- Claim C1 fails on the code: `renderText` escapes the raw text once and
`bionicWrapText` escapes every emitted fragment again, so an ampersand in the
source text reaches the final HTML as the double-escaped `&amp;amp;` instead
of appearing as its entity exactly once.  This theorem evaluates the rendering
pipeline at the failing input, the one-character text `&` at intensity 35. -/
theorem renderText_double_escapes :
    renderTextHtml ("&".toList) 35 = ("&amp;amp;".toList) := by decide

/-- The accumulation loop keeps exactly the non-empty page texts, in order. -/
theorem collectPages_eq_filter (pages : List (List Char)) :
    collectPages pages = pages.filter (fun t => !t.isEmpty) := by
  have key : ∀ (ps : List (List Char)) (acc : List (List Char)),
      ps.foldl (fun a txt => if txt ≠ [] then a ++ [txt] else a) acc
        = acc ++ ps.filter (fun t => !t.isEmpty) := by
    intro ps
    induction ps with
    | nil => intro acc; simp
    | cons t ps ih =>
      intro acc
      by_cases ht : t = []
      · subst ht
        rw [List.foldl_cons, if_neg (by simp), ih acc]
        simp
      · rw [List.foldl_cons, if_pos ht, ih (acc ++ [t])]
        have hne : (!List.isEmpty t) = true := by
          simpa [List.isEmpty_iff] using ht
        simp [hne, List.filter_cons]
  simpa [collectPages] using key pages []

/-- Claim C8: on a successfully opened document the extraction concatenates
the page texts in document order with a double newline between pages, and a
page yielding no text contributes nothing: the result equals the double
newline join of the non-empty pages, and filtering the empty pages away first
does not change the result. -/
theorem extractText_joins_nonempty_pages (pages : List (List Char)) :
    extractText (Except.ok pages)
      = List.intercalate ("\n\n".toList) (pages.filter (fun t => !t.isEmpty)) ∧
    extractText (Except.ok (pages.filter (fun t => !t.isEmpty)))
      = extractText (Except.ok pages) := by
  constructor
  · rw [extractText]
    rw [collectPages_eq_filter]
  · rw [extractText, extractText, collectPages_eq_filter, collectPages_eq_filter,
      List.filter_filter]
    simp

/-- Claim C5: on an accepted upload whose extraction raises, the handler
catches the error, embeds the placeholder text
`[Error extracting text: <details>]` as the raw text of the document, and
still responds with a 200 page instead of a server failure. -/
theorem upload_extraction_error_fail_soft (filename err : List Char)
    (san : List Char → List Char)
    (hname : filename ≠ []) (hallow : allowed_file filename = true) :
    (upload_file true filename san (Except.error err)).status = 200 ∧
    (upload_file true filename san (Except.error err)).rawText
      = some (("[Error extracting text: ".toList) ++ err ++ ("]".toList)) ∧
    (upload_file true filename san (Except.error err)).redirectTo = none := by
  unfold upload_file
  simp [hname, hallow, extractText]

/-- Witness for C5 at a concrete accepted filename and exception message. -/
theorem upload_extraction_error_fail_soft_witness :
    (upload_file true ("doc.pdf".toList) id (Except.error ("boom".toList))).status = 200 ∧
    (upload_file true ("doc.pdf".toList) id (Except.error ("boom".toList))).rawText
      = some (("[Error extracting text: ".toList) ++ ("boom".toList) ++ ("]".toList)) ∧
    (upload_file true ("doc.pdf".toList) id (Except.error ("boom".toList))).redirectTo
      = none :=
  upload_extraction_error_fail_soft ("doc.pdf".toList) ("boom".toList) id
    (by decide) (by decide)

/-- Claim C6: a request with no file part, an empty filename, or an extension
outside the allowed set is answered with a flashed message and a 302 redirect
to the index, and no file is written to storage. -/
theorem upload_rejects_invalid (hasFilePart : Bool) (filename : List Char)
    (san : List Char → List Char) (doc : PdfDoc)
    (h : hasFilePart = false ∨ filename = [] ∨ allowed_file filename = false) :
    (upload_file hasFilePart filename san doc).status = 302 ∧
    (upload_file hasFilePart filename san doc).redirectTo = some ("/".toList) ∧
    (upload_file hasFilePart filename san doc).flashed ≠ none ∧
    (upload_file hasFilePart filename san doc).steps = [] ∧
    (∀ pth, Step.saveFile pth ∉ (upload_file hasFilePart filename san doc).steps) := by
  unfold upload_file
  split_ifs with h1 h2 h3
  · simp
  · simp
  · exfalso
    rcases h with h | h | h
    · exact h1 h
    · exact h2 h
    · exact absurd (h3.symm.trans h) (by decide)
  · simp

/-- Witness for C6: uploading a file named `doc.txt` is rejected with a
redirect and nothing is written. -/
theorem upload_rejects_invalid_witness :
    (upload_file true ("doc.txt".toList) id (Except.ok [])).status = 302 ∧
    (upload_file true ("doc.txt".toList) id (Except.ok [])).redirectTo
      = some ("/".toList) ∧
    (upload_file true ("doc.txt".toList) id (Except.ok [])).flashed ≠ none ∧
    (upload_file true ("doc.txt".toList) id (Except.ok [])).steps = [] ∧
    (∀ pth, Step.saveFile pth ∉ (upload_file true ("doc.txt".toList) id (Except.ok [])).steps) :=
  upload_rejects_invalid true ("doc.txt".toList) id (Except.ok [])
    (Or.inr (Or.inr (by decide)))

/-- Claim C9: on an accepted upload the file is saved before the extraction is
attempted, and when the extraction raises, the handler neither removes nor
overwrites the saved file: replaying the step trace leaves the file on disk
while the response is still a 200 page. -/
theorem upload_save_survives_error (filename err : List Char)
    (san : List Char → List Char)
    (hname : filename ≠ []) (hallow : allowed_file filename = true) :
    (upload_file true filename san (Except.error err)).steps
      = [Step.saveFile (("uploads/".toList) ++ san filename), Step.extractAttempt] ∧
    replayFs ((upload_file true filename san (Except.error err)).steps)
      = [("uploads/".toList) ++ san filename] ∧
    (∀ pth, Step.removeFile pth ∉ (upload_file true filename san (Except.error err)).steps) ∧
    (upload_file true filename san (Except.error err)).status = 200 := by
  unfold upload_file
  simp [hname, hallow, replayFs]

/-- Witness for C9 at a concrete accepted filename and exception message. -/
theorem upload_save_survives_error_witness :
    (upload_file true ("doc.pdf".toList) id (Except.error ("boom".toList))).steps
      = [Step.saveFile (("uploads/".toList) ++ ("doc.pdf".toList)), Step.extractAttempt] ∧
    replayFs ((upload_file true ("doc.pdf".toList) id (Except.error ("boom".toList))).steps)
      = [("uploads/".toList) ++ ("doc.pdf".toList)] ∧
    (∀ pth, Step.removeFile pth
      ∉ (upload_file true ("doc.pdf".toList) id (Except.error ("boom".toList))).steps) ∧
    (upload_file true ("doc.pdf".toList) id (Except.error ("boom".toList))).status = 200 :=
  upload_save_survives_error ("doc.pdf".toList) ("boom".toList) id (by decide) (by decide)

/-- Claim C10: the extension check accepts a filename exactly when it contains
a dot and the part after the last dot lowercases to `pdf`; hence the dotless
name `pdf` is rejected while the dotfile name `.pdf` is accepted. -/
theorem allowed_file_rule :
    (∀ f : List Char, allowed_file f = true ↔
      f.contains '.' = true ∧ lowerAscii (afterLastDot f) = ("pdf".toList)) ∧
    allowed_file ("pdf".toList) = false ∧
    allowed_file (".pdf".toList) = true := by
  refine ⟨fun f => ?_, by decide, by decide⟩
  simp [allowed_file]

/-- Claim C7: the style application sets the font size directly, writes the
line height as the unitless quotient of the two pixel values rounded to two
decimals, and switches the muted color, the reduced opacity and the positive
letter spacing on the soft-text flag, reverting to the full-contrast defaults
when it is off. -/
theorem applyStyles_contract (s : DisplayState) :
    (applyStyles s).fontSizePx = s.fontSizePx ∧
    (applyStyles s).lineHeight = toFixed2 (s.lineHeightPx / s.fontSizePx) ∧
    (s.softEnabled = true →
      (applyStyles s).color = CssColor.softGray ∧
      (applyStyles s).opacity = 0.95 ∧ (applyStyles s).opacity < 1 ∧
      (applyStyles s).letterSpacingPx = 0.2 ∧ 0 < (applyStyles s).letterSpacingPx) ∧
    (s.softEnabled = false →
      (applyStyles s).color = CssColor.primaryText ∧
      (applyStyles s).opacity = 1 ∧ (applyStyles s).letterSpacingPx = 0) := by
  refine ⟨rfl, rfl, fun h => ?_, fun h => ?_⟩
  · refine ⟨by simp [applyStyles, h], by simp [applyStyles, h], ?_, by simp [applyStyles, h], ?_⟩
    · simp only [applyStyles, h, reduceIte]
      norm_num
    · simp only [applyStyles, h, reduceIte]
      norm_num
  · exact ⟨by simp [applyStyles, h], by simp [applyStyles, h], by simp [applyStyles, h]⟩

/-- Witness for C7 at the default slider values, soft text on and off. -/
theorem applyStyles_contract_witness :
    (applyStyles ⟨16, 24, true⟩).opacity = 0.95 ∧
    (applyStyles ⟨16, 24, true⟩).letterSpacingPx = 0.2 ∧
    (applyStyles ⟨16, 24, false⟩).opacity = 1 ∧
    (applyStyles ⟨16, 24, false⟩).letterSpacingPx = 0 :=
  ⟨((applyStyles_contract ⟨16, 24, true⟩).2.2.1 rfl).2.1,
   ((applyStyles_contract ⟨16, 24, true⟩).2.2.1 rfl).2.2.2.1,
   ((applyStyles_contract ⟨16, 24, false⟩).2.2.2 rfl).2.1,
   ((applyStyles_contract ⟨16, 24, false⟩).2.2.2 rfl).2.2⟩

end BionicReader
